import Mathlib

/-!
Verification of the netplan-js layered-configuration engine.

The JavaScript source (`src/index.js`, with the evolved merge policy of the
second unnamed module) is shallowly embedded here:

* JavaScript values that can occur in a parsed YAML tree (plus the explicit
  `undefined` that callers can place in `setInterface` data) become the
  inductive `JVal`;
* the module-level helpers `isObject`, `mergeDeep` and `getConfigFilenames`
  become pure Lean functions (`isObjectJs`, `jmergeDeep`, `getConfigFilenames`);
* the `Netplan` class becomes the structure `Netplan`, its methods become
  functions from a `Netplan` to a `Netplan` and/or an `Except JsErr` result,
  with the file system and YAML collaborators passed in as explicit
  function parameters;
* a thrown JavaScript exception is modelled by `JsErr`: `.typeError` for the
  `TypeError` raised by property access on `undefined`/`null`, `.ioError` for
  failures injected by the I/O collaborators (`readdir`, `readFileSync`,
  `writeFileSync`, `loadYaml`, `dumpYaml`), and `.jsError` for `throw new
  Error(msg)`.

`JVal.obj` carries its fields as an insertion-ordered association list; a
list with duplicate keys does not represent a JavaScript object (objects
cannot have two own properties with the same key), and well-formedness where
it matters is captured by the predicate `WfJ`.
-/

inductive JsErr where
  | typeError
  | ioError (msg : String)
  | jsError (msg : String)
deriving DecidableEq

inductive JVal where
  | undefJs
  | null
  | bool (b : Bool)
  | num (n : Int)
  | str (s : String)
  | arr (elems : List JVal)
  | obj (fields : List (String × JVal))

/-- Truthiness of a JavaScript value (`if (v)`): `undefined`, `null`, `false`,
`0` and `""` are falsy, every array and object (including `{}`) is truthy. -/
def truthy : JVal → Bool
  | .undefJs => false
  | .null => false
  | .bool b => b
  | .num n => n != 0
  | .str s => s != ""
  | .arr _ => true
  | .obj _ => true

/-- The test `typeof v === 'object'`: true for `null`, arrays and objects. -/
def typeofObj : JVal → Bool
  | .null => true
  | .arr _ => true
  | .obj _ => true
  | _ => false

/-- The source helper `isObject = (obj) => obj && typeof obj === 'object'`:
truthiness excludes `null`, so only arrays and objects qualify. -/
def isObjectJs : JVal → Bool
  | .arr _ => true
  | .obj _ => true
  | _ => false

def isArr : JVal → Bool
  | .arr _ => true
  | _ => false

def isNullish : JVal → Bool
  | .null => true
  | .undefJs => true
  | _ => false

def arrElems : JVal → List JVal
  | .arr xs => xs
  | _ => []

/-- JavaScript strict equality `a === b` restricted to the cases the source
exercises: the `pVal.includes(val)` test in `mergeDeep` runs only when
`typeof val !== 'object'`, so `val` is a primitive and `===` is plain value
equality (a primitive is never `===` an object or array). -/
def scalarEq (a b : JVal) : Bool :=
  match a, b with
  | .undefJs, .undefJs => true
  | .null, .null => true
  | .bool x, .bool y => x == y
  | .num x, .num y => x == y
  | .str x, .str y => x == y
  | _, _ => false

/-- Property read `v[key]`, defined for any base value that is not
`null`/`undefined` (reading a property of `null`/`undefined` throws and is
modelled at the call sites). A missing property yields `JVal.undefJs`, exactly
as in JavaScript; arrays and strings expose `length` and canonical index
keys. -/
def getField : JVal → String → JVal
  | .obj fs, k =>
    match fs.find? (fun p => p.1 == k) with
    | some p => p.2
    | none => .undefJs
  | .arr xs, k =>
    if k == "length" then .num xs.length
    else
      match k.toNat? with
      | some i => if toString i == k then (xs.get? i).getD .undefJs else .undefJs
      | none => .undefJs
  | .str s, k =>
    if k == "length" then .num s.length
    else
      match k.toNat? with
      | some i =>
        if toString i == k then
          match s.data.get? i with
          | some c => .str (String.singleton c)
          | none => .undefJs
        else .undefJs
      | none => .undefJs
  | _, _ => .undefJs

def enumFrom (i : Nat) : List JVal → List (String × JVal)
  | [] => []
  | x :: xs => (toString i, x) :: enumFrom (i + 1) xs

def enumChars (i : Nat) : List Char → List (String × JVal)
  | [] => []
  | c :: cs => (toString i, .str (String.singleton c)) :: enumChars (i + 1) cs

/-- Own enumerable (key, value) entries of a value, in the order
`Object.keys(v)` produces them: an object's insertion-ordered fields
(explicitly-assigned `undefined` properties included), an array's or string's
index entries, and nothing for other primitives. -/
def jsEntries : JVal → List (String × JVal)
  | .obj fs => fs
  | .arr xs => enumFrom 0 xs
  | .str s => enumChars 0 s.data
  | _ => []

/-- `Object.keys(v)` for a non-`null`, non-`undefined` value. -/
def jsKeys (v : JVal) : List String :=
  (jsEntries v).map (·.1)

/-- Assignment into an association list: an existing key keeps its position
and gets the new value, a new key is appended (JavaScript property
assignment order). -/
def setEntry (fs : List (String × JVal)) (k : String) (v : JVal) :
    List (String × JVal) :=
  if fs.any (fun p => p.1 == k) then
    fs.map (fun p => if p.1 == k then (k, v) else p)
  else fs ++ [(k, v)]

/-- Property assignment `base[k] = v` as used on the accumulator object of
`mergeDeep` (the accumulator is always an object). -/
def setFieldJ : JVal → String → JVal → JVal
  | .obj fs, k, v => .obj (setEntry fs k v)
  | base, _, _ => base

/-- Destructuring with a default, `const { k = dflt } = v` for a base `v`
that is not `null`/`undefined`: the default applies exactly when the
property is missing or `undefined`. -/
def fieldOrDefault (v : JVal) (k : String) (dflt : JVal) : JVal :=
  match getField v k with
  | .undefJs => dflt
  | w => w

mutual
/-- Structural size of a value, used as the recursion budget of the fueled
functions below (the derived `sizeOf` of the nested inductive is not
executable, so the measure is spelled out). -/
def sizeJ : JVal → Nat
  | .undefJs => 1
  | .null => 1
  | .bool _ => 1
  | .num _ => 1
  | .str _ => 1
  | .arr xs => 1 + sizeJL xs
  | .obj fs => 1 + sizeJF fs

def sizeJL : List JVal → Nat
  | [] => 0
  | x :: xs => 1 + sizeJ x + sizeJL xs

def sizeJF : List (String × JVal) → Nat
  | [] => 0
  | kv :: fs => 1 + sizeJ kv.2 + sizeJF fs
end

/-- A model of `JSON.stringify` (used only by the dead de-duplication test in
`mergeDeep`; `none` models the call returning `undefined` for an `undefined`
argument). String escaping is simplified to plain quoting; no property of
the development depends on the rendered text, only on `jstr` being a
function. -/
def jstrF : Nat → JVal → Option String
  | 0, _ => none
  | fuel + 1, v =>
    match v with
    | .undefJs => none
    | .null => some "null"
    | .bool b => some (if b then "true" else "false")
    | .num n => some (toString n)
    | .str s => some ("\"" ++ s ++ "\"")
    | .arr xs =>
      some ("[" ++ String.intercalate ","
        (xs.map (fun x => (jstrF fuel x).getD "null")) ++ "]")
    | .obj fs =>
      some ("\x7b" ++ String.intercalate ","
        (fs.filterMap (fun kv =>
          (jstrF fuel kv.2).map (fun sv => "\"" ++ kv.1 ++ "\":" ++ sv)))
        ++ "\x7d")

def jstr (v : JVal) : Option String :=
  jstrF (sizeJ v) v

/-- The count `oVal.map((v) => JSON.stringify(v)).filter((v) => v === vv).length`
for `vv = JSON.stringify(val)`. -/
def jsonCount (oVal : List JVal) (val : JVal) : Nat :=
  ((oVal.map jstr).filter (fun s => s == jstr val)).length

/-- The array branch of `mergeDeep` in the evolved source: start from a copy
of `pVal` and, for each `val` of `oVal` in order, push it when it is a
primitive not `===`-contained in `pVal`; otherwise push it only when
`oVal` contains no element with the same `JSON.stringify` image — a test
that can never succeed, because `val` itself is an element of `oVal`. -/
def arrayMerge (pVal oVal : List JVal) : List JVal :=
  pVal ++ oVal.filter (fun val =>
    if !typeofObj val && !pVal.any (scalarEq val) then true
    else jsonCount oVal val == 0)

/-- The first `reduce` step of `mergeDeep(a, b)`: merging `a` into the fresh
`{}` accumulator. Every key of `a` is new there, so each iteration takes the
plain-assignment branch and the result is a shallow object copy of `a`'s
entries. -/
def shallowCopy (p : JVal) : JVal :=
  (jsEntries p).foldl (fun acc kv => setFieldJ acc kv.1 kv.2) (.obj [])

/-- The second `reduce` step of `mergeDeep(prev, o)`: fold `o`'s entries into
the accumulator `prev`, combining per key (array vs array, object vs object,
otherwise overwrite). The `fuel` argument is a recursion budget; `sizeOf o`
always suffices (the recursive call descends into a member of `o`), and the
public wrappers below supply it. -/
def jmergeStepF : Nat → JVal → JVal → JVal
  | 0, prev, _ => prev
  | fuel + 1, prev, o =>
    (jsEntries o).foldl (fun acc kv =>
      if isArr (getField acc kv.1) && isArr kv.2 then
        setFieldJ acc kv.1
          (.arr (arrayMerge (arrElems (getField acc kv.1)) (arrElems kv.2)))
      else if isObjectJs (getField acc kv.1) && isObjectJs kv.2 then
        setFieldJ acc kv.1 (jmergeStepF fuel (shallowCopy (getField acc kv.1)) kv.2)
      else setFieldJ acc kv.1 kv.2) prev

/-- `mergeDeep(p, o)` with two arguments, as every call site uses it:
`[p, o].reduce(..., {})`. `Object.keys` of `null`/`undefined` throws a
`TypeError`; for any other arguments the reduction is total. -/
def jmergeDeep (p o : JVal) : Except JsErr JVal :=
  if isNullish p || isNullish o then .error .typeError
  else .ok (jmergeStepF (sizeJ o) (shallowCopy p) o)

/-- The per-key combination rule of `mergeDeep` (§4.1 `combine`): array vs
array merges arrays, object vs object recurses as `mergeDeep`, anything else
is last-write-wins. -/
def combine (pVal oVal : JVal) : Except JsErr JVal :=
  if isArr pVal && isArr oVal then
    .ok (.arr (arrayMerge (arrElems pVal) (arrElems oVal)))
  else if isObjectJs pVal && isObjectJs oVal then jmergeDeep pVal oVal
  else .ok oVal

/-- The `Netplan` class state: `netplanPath`, the derived `plan`, the
per-file `configs` map (insertion-ordered, keyed by filename), the sorted
`configFiles` list, and the dirty set `changed` (a JavaScript `Set`
iterates in insertion order, so it is carried as a duplicate-free list). -/
structure Netplan where
  netplanPath : String
  plan : JVal
  configs : List (String × JVal)
  configFiles : List String
  changed : List String

/-- `new Netplan({ netplanPath })`. -/
def Netplan.make (path : String) : Netplan :=
  { netplanPath := path, plan := .obj [], configs := [], configFiles := [],
    changed := [] }

/-- `this.configs[f]` (missing key reads as `undefined`). -/
def lookupConfig (configs : List (String × JVal)) (f : String) : JVal :=
  match configs.find? (fun p => p.1 == f) with
  | some p => p.2
  | none => .undefJs

/-- `this.configs[filename] || {}` as evaluated by `getFilenameByInterface`. -/
def fragTree (configs : List (String × JVal)) (f : String) : JVal :=
  if truthy (lookupConfig configs f) then lookupConfig configs f else .obj []

/-- Insertion into the `changed` set (`this.changed.add(f)`). -/
def addChanged (changed : List String) (f : String) : List String :=
  if changed.contains f then changed else changed ++ [f]

/-- Character-list equality test used by the string helpers below (spelled
out so that proofs can evaluate it). -/
def listPrefixEq : List Char → List Char → Bool
  | [], _ => true
  | _ :: _, [] => false
  | a :: as, b :: bs => a == b && listPrefixEq as bs

/-- The regex test `/\.yaml$/.test(file)`: the name ends with `.yaml`. -/
def strEndsWith (s suffix : String) : Bool :=
  listPrefixEq suffix.data.reverse s.data.reverse

/-- Lexicographic (code-unit) comparison of two strings, as JavaScript's
default `sort()` comparator orders them. -/
def charListLt : List Char → List Char → Bool
  | [], [] => false
  | [], _ :: _ => true
  | _ :: _, [] => false
  | a :: as, b :: bs =>
    if a.toNat < b.toNat then true
    else if b.toNat < a.toNat then false
    else charListLt as bs

/-- The successful branch of `getConfigFilenames`: keep the `readdir` names
matching `/\.yaml$/` and prefix them with the directory path. The `readdir`
callback itself is modelled by the `Except` listing argument of
`loadConfigs` (an `err` there rejects the promise before this runs). -/
def getConfigFilenames (path : String) (files : List String) : List String :=
  (files.filter (fun f => strEndsWith f ".yaml")).map (fun f => path ++ "/" ++ f)

/-- `filenames.sort()`: ascending lexicographic insertion sort (JavaScript's
default string comparison; duplicates cannot arise from a directory
listing, so stability is irrelevant). -/
def insSorted (s : String) : List String → List String
  | [] => [s]
  | x :: xs => if charListLt x.data s.data then x :: insSorted s xs else s :: x :: xs

def sortStrings : List String → List String
  | [] => []
  | x :: xs => insSorted x (sortStrings xs)

/-- `loadYaml(data) || {}`: a falsy parse result (empty document, `null`)
is replaced by an empty object. -/
def orEmptyObj (v : JVal) : JVal :=
  if truthy v then v else .obj []

/-- The `filenames.forEach` loop body of `loadConfigs`: read and parse one
file (`reads` models `loadYaml(readFileSync(name))` and can throw), store
the result in `configs` and fold it into `plan`. A thrown exception leaves
the already-performed mutations in place and rejects the promise. -/
def loadLoop (reads : String → Except JsErr JVal) :
    Netplan → List String → Netplan × Option JsErr
  | st, [] => (st, none)
  | st, name :: rest =>
    match reads name with
    | .error e => (st, some e)
    | .ok v =>
      match jmergeDeep st.plan (orEmptyObj v) with
      | .error e => (st, some e)
      | .ok p =>
        loadLoop reads
          { st with configs := setEntry st.configs name (orEmptyObj v),
                    plan := p } rest

/-- `loadConfigs()`: enumerate (the injected `listing` is the raw `readdir`
result), sort, reset `configFiles`, `configs` and `plan`, then ingest each
file in sorted order. Note that `this.changed` is never touched. -/
def Netplan.loadConfigs (st : Netplan) (listing : Except JsErr (List String))
    (reads : String → Except JsErr JVal) : Netplan × Option JsErr :=
  match listing with
  | .error e => (st, some e)
  | .ok files =>
    let filenames := sortStrings (getConfigFilenames st.netplanPath files)
    loadLoop reads
      { st with configFiles := filenames, configs := [],
                plan := .obj [("network", .obj [])] } filenames

/-- The `this.changed.forEach` loop of `writeConfigs`: `write` models
`writeFileSync(name, dumpYaml(this.configs[name]))` and returns the first
thrown error, if any. -/
def writeLoop (st : Netplan) (write : String → JVal → Except JsErr Unit) :
    List String → Option JsErr
  | [] => none
  | name :: rest =>
    match write name (lookupConfig st.configs name) with
    | .error e => some e
    | .ok _ => writeLoop st write rest

/-- `writeConfigs()`: serialize every fragment in the dirty set in insertion
order inside one `try`; on success resolve with the previous size of the
dirty set and replace it with a fresh empty `Set`; on the first thrown
error reject with it, leaving all state (including `this.changed`)
untouched. -/
def Netplan.writeConfigs (st : Netplan)
    (write : String → JVal → Except JsErr Unit) : Netplan × Except JsErr Nat :=
  match writeLoop st write st.changed with
  | some e => (st, .error e)
  | none => ({ st with changed := [] }, .ok st.changed.length)

/-- `getInterfaces(type)` body: `const { network = {} } = this.plan; return
network[type];` — destructuring throws on a `null`/`undefined` plan, and
the indexing throws when the stored `network` value is `null`. -/
def Netplan.getInterfaces (st : Netplan) (type : String) : Except JsErr JVal :=
  match st.plan with
  | .null => .error .typeError
  | .undefJs => .error .typeError
  | p =>
    match fieldOrDefault p "network" (.obj []) with
    | .null => .error .typeError
    | netv => .ok (getField netv type)

/-- A call `netplan.getInterfaces(...)` with an optional argument: the
default parameter `type = 'ethernets'` applies when no argument (or
`undefined`) is passed. -/
def Netplan.getInterfacesCall (st : Netplan) (type? : Option String) :
    Except JsErr JVal :=
  st.getInterfaces (match type? with | none => "ethernets" | some t => t)

/-- `getInterfaceNames(type)`: `null` for a non-`object` category node,
`Object.keys(ifaces)` otherwise — which throws a `TypeError` when the node
is `null` (in JavaScript `typeof null === 'object'`). -/
def Netplan.getInterfaceNames (st : Netplan) (type : String) :
    Except JsErr JVal :=
  match st.getInterfaces type with
  | .error e => .error e
  | .ok ifaces =>
    if typeofObj ifaces then
      match ifaces with
      | .null => .error .typeError
      | v => .ok (.arr ((jsKeys v).map .str))
    else .ok .null

/-- `getInterface(type, name)`: `ifaces[name]` when `typeof ifaces ===
'object'` (which throws when `ifaces` is `null`), else `null`. -/
def Netplan.getInterface (st : Netplan) (type name : String) :
    Except JsErr JVal :=
  match st.getInterfaces type with
  | .error e => .error e
  | .ok ifaces =>
    if typeofObj ifaces then
      match ifaces with
      | .null => .error .typeError
      | v => .ok (getField v name)
    else .ok .null

/-- The backwards `for` loop of `getFilenameByInterface`, already applied to
the reversed `configFiles` list. Per file: `const { network = {} } =
configs[filename] || {}` (never throws, the base is truthy), then
`network[type]` (throws when the stored `network` is `null`); a category
node passing `typeof ifaces === 'object'` returns the filename when no
name is requested, otherwise `ifaces[name]` is inspected (throwing when
`ifaces` is `null`). -/
def scanFilesRev (configs : List (String × JVal)) (type : String)
    (name : Option String) : List String → Except JsErr (Option String)
  | [] => .ok none
  | filename :: rest =>
    match fieldOrDefault (fragTree configs filename) "network" (.obj []) with
    | .null => .error .typeError
    | netv =>
      if typeofObj (getField netv type) then
        match name with
        | none => .ok (some filename)
        | some nm =>
          match getField netv type with
          | .null => .error .typeError
          | iv =>
            if typeofObj (getField iv nm) then .ok (some filename)
            else scanFilesRev configs type name rest
      else scanFilesRev configs type name rest

/-- `getFilenameByInterface(type, name)`: scan `configFiles` from the last
entry to the first; `name = none` models the call with `name` left
`undefined`. -/
def Netplan.getFilenameByInterface (st : Netplan) (type : String)
    (name : Option String) : Except JsErr (Option String) :=
  scanFilesRev st.configs type name st.configFiles.reverse

/-- Truthiness of a `getFilenameByInterface` result in the `||` chain of
`setInterface` (`null` and the empty string are falsy). -/
def strTruthy : Option String → Bool
  | none => false
  | some s => s != ""

/-- The target-resolution expression of `setInterface`:
`this.getFilenameByInterface(type, name) || this.getFilenameByInterface(type)
|| this.filenames[0]`. The class never assigns a `filenames` property (the
field is called `configFiles`), so the final fallback reads `undefined[0]`
and throws a `TypeError`; consequently the subsequent
`if (!filename) throw new Error('No configuration files')` line is
unreachable. -/
def setTarget (st : Netplan) (type name : String) : Except JsErr String :=
  match st.getFilenameByInterface type (some name) with
  | .error e => .error e
  | .ok r1 =>
    if strTruthy r1 then .ok (r1.getD "")
    else
      match st.getFilenameByInterface type none with
      | .error e => .error e
      | .ok r2 =>
        if strTruthy r2 then .ok (r2.getD "")
        else .error .typeError

/-- The `this.configFiles.forEach` fold of `updatePlan`, starting from the
fresh `{ network: {} }`: `this.plan = mergeDeep(this.plan, this.configs[name])`.
A thrown merge error (possible only when a listed file has no `configs`
entry, i.e. after an interrupted load) leaves the partially rebuilt plan in
place. -/
def updatePlanLoop (configs : List (String × JVal)) :
    JVal → List String → JVal × Option JsErr
  | plan, [] => (plan, none)
  | plan, name :: rest =>
    match jmergeDeep plan (lookupConfig configs name) with
    | .error e => (plan, some e)
    | .ok p => updatePlanLoop configs p rest

/-- The plan recomputed from scratch as `updatePlan` does. -/
def planFold (configFiles : List String) (configs : List (String × JVal)) :
    JVal × Option JsErr :=
  updatePlanLoop configs (.obj [("network", .obj [])]) configFiles

/-- `updatePlan()`. -/
def Netplan.updatePlan (st : Netplan) : Netplan × Option JsErr :=
  match planFold st.configFiles st.configs with
  | (p, e) => ({ st with plan := p }, e)

/-- `setInterface(type, name, data)`: resolve the target fragment (see
`setTarget`), add it to the dirty set, deep-merge the single-entity patch
into its tree, and recompute the plan. Each mutation that has happened
before a throw stays in place. -/
def Netplan.setInterface (st : Netplan) (type name : String) (data : JVal) :
    Netplan × Option JsErr :=
  match setTarget st type name with
  | .error e => (st, some e)
  | .ok filename =>
    let st1 := { st with changed := addChanged st.changed filename }
    match jmergeDeep (lookupConfig st.configs filename)
        (.obj [("network", .obj [(type, .obj [(name, data)])])]) with
    | .error e => (st1, some e)
    | .ok cfg =>
      Netplan.updatePlan { st1 with configs := setEntry st1.configs filename cfg }

/-- Well-formedness of a value as a JavaScript-representable tree: every
object node has duplicate-free keys. -/
inductive WfJ : JVal → Prop
  | undefJs : WfJ .undefJs
  | null : WfJ .null
  | bool (b : Bool) : WfJ (.bool b)
  | num (n : Int) : WfJ (.num n)
  | str (s : String) : WfJ (.str s)
  | arr (xs : List JVal) : (∀ x ∈ xs, WfJ x) → WfJ (.arr xs)
  | obj (fs : List (String × JVal)) : (fs.map Prod.fst).Nodup →
      (∀ kv ∈ fs, WfJ kv.2) → WfJ (.obj fs)

def isNull : JVal → Bool
  | .null => true
  | _ => false

/-- The stopping predicate of the ownership scan at one file: the loop either
returns this filename or throws while examining it. -/
def scanHit (configs : List (String × JVal)) (type : String)
    (name : Option String) (f : String) : Bool :=
  match fieldOrDefault (fragTree configs f) "network" (.obj []) with
  | .null => true
  | netv =>
    typeofObj (getField netv type) &&
      (name.isNone || isNull (getField netv type) ||
        typeofObj (getField (getField netv type) (name.getD "")))

/-- Whether the scan, stopping at file `f`, throws rather than returning it:
the fragment's `network` value is `null`, or a name is requested and the
category node is `null`. -/
def scanThrows (configs : List (String × JVal)) (type : String)
    (name : Option String) (f : String) : Bool :=
  match fieldOrDefault (fragTree configs f) "network" (.obj []) with
  | .null => true
  | netv => isNull (getField netv type) && name.isSome

/-- A store with a single fragment that defines no category at all (owner
resolution fails, so `setInterface` reaches the broken earliest-fragment
fallback). -/
def stNoOwner : Netplan :=
  { netplanPath := "p", plan := .obj [("network", .obj [])],
    configs := [("a.yaml", .obj [])], configFiles := ["a.yaml"], changed := [] }

/-- A store with a stale dirty entry, about to be reloaded. -/
def stDirty : Netplan :=
  { netplanPath := "p", plan := .obj [("network", .obj [])],
    configs := [("a.yaml", .obj [])], configFiles := ["a.yaml"],
    changed := ["a.yaml"] }

/-- A store with two dirty fragments, for the flush claims. -/
def stTwoDirty : Netplan :=
  { netplanPath := "p", plan := .obj [],
    configs := [("a.yaml", .obj []), ("b.yaml", .obj [])],
    configFiles := ["a.yaml", "b.yaml"], changed := ["a.yaml", "b.yaml"] }

/-- A persistence collaborator that succeeds on `a.yaml` and fails on
`b.yaml`. -/
def writeFailB : String → JVal → Except JsErr Unit :=
  fun n _ => if n == "b.yaml" then .error (.ioError "ENOSPC") else .ok ()

/-- Fragment trees for the spec's de-duplication example. -/
def fragAddrA : JVal := .obj [("network", .obj [("ethernets", .obj [("eth0",
  .obj [("addresses", .arr [.str "1.1.1.1/24"])])])])]

def fragAddrB : JVal := .obj [("network", .obj [("ethernets", .obj [("eth0",
  .obj [("addresses", .arr [.str "1.1.1.1/24", .str "8.8.8.8/24"])])])])]

def isObj : JVal → Bool
  | .obj _ => true
  | _ => false

/-- Auxiliary: a fold whose step leaves the accumulator unchanged on every
list element is the identity. -/
theorem foldl_fixed {α β : Type} (f : α → β → α) (a : α) :
    ∀ l : List β, (∀ b ∈ l, f a b = a) → l.foldl f a = a
  | [], _ => rfl
  | b :: l, h => by
    rw [List.foldl_cons, h b (List.mem_cons_self _ _)]
    exact foldl_fixed f a l (fun x hx => h x (List.mem_cons_of_mem _ hx))

/-- Auxiliary: `filter` only depends on the predicate's values on the list. -/
theorem filter_ext {α : Type} (p q : α → Bool) :
    ∀ l : List α, (∀ a ∈ l, p a = q a) → l.filter p = l.filter q
  | [], _ => rfl
  | a :: l, h => by
    have ih := filter_ext p q l (fun x hx => h x (List.mem_cons_of_mem _ hx))
    simp only [List.filter_cons, h a (List.mem_cons_self _ _), ih]

/-- The `JSON.stringify` de-duplication guard of `mergeDeep` counts
occurrences inside `oVal`, and the probed element is itself a member of
`oVal`, so the count is never zero. -/
theorem jsonCount_ne_zero {l : List JVal} {v : JVal} (hv : v ∈ l) :
    jsonCount l v ≠ 0 := by
  intro h
  rw [jsonCount, List.length_eq_zero] at h
  have hm : jstr v ∈ (l.map jstr).filter (fun s => s == jstr v) :=
    List.mem_filter.mpr ⟨List.mem_map_of_mem _ hv, by simp⟩
  rw [h] at hm
  exact absurd hm (List.not_mem_nil _)

/-- What the array branch actually computes: keep `prev`, then append the
primitive elements of `next` that are not `===`-contained in `prev`. -/
theorem arrayMerge_eq (pVal oVal : List JVal) :
    arrayMerge pVal oVal =
      pVal ++ oVal.filter (fun v => !typeofObj v && !pVal.any (scalarEq v)) := by
  rw [arrayMerge]
  congr 1
  apply filter_ext
  intro v hv
  have h := jsonCount_ne_zero hv
  cases hb : (!typeofObj v && !pVal.any (scalarEq v)) with
  | true => simp [hb]
  | false => simp [hb, h]

/-- Two fragments for the read-after-write counterexample: the owner of
`eth0` is `a.yaml` (the later `b.yaml` holds a scalar there, which is not
object-shaped), yet `b.yaml`'s scalar wins in the fold. -/
def cfgOwner : JVal := .obj [("network", .obj [("ethernets", .obj [("eth0",
  .obj [("x", .num 1)])])])]

def cfgScalar : JVal := .obj [("network", .obj [("ethernets", .obj [("eth0",
  .num 5)])])]

def stOverride : Netplan :=
  { netplanPath := "p",
    plan := (planFold ["a.yaml", "b.yaml"]
      [("a.yaml", cfgOwner), ("b.yaml", cfgScalar)]).1,
    configs := [("a.yaml", cfgOwner), ("b.yaml", cfgScalar)],
    configFiles := ["a.yaml", "b.yaml"], changed := [] }

/-- A plan whose `ethernets` category is `null` (as produced by loading a
YAML fragment `network:\n  ethernets:`). -/
def stNullCat : Netplan :=
  { netplanPath := "p", plan := .obj [("network", .obj [("ethernets", .null)])],
    configs := [], configFiles := [], changed := [] }

/-- The ownership example of the spec: `[A, B]` sorted, `A` defines `eth0`,
`B` defines the category but not the entity. -/
def stOwnExample : Netplan :=
  { netplanPath := "p", plan := .obj [],
    configs := [("a.yaml", .obj [("network", .obj [("ethernets", .obj [("eth0",
        .obj [("dhcp4", .bool true)])])])]),
      ("b.yaml", .obj [("network", .obj [("ethernets", .obj [])])])],
    configFiles := ["a.yaml", "b.yaml"], changed := [] }

/-- A store holding one fragment whose category node is `null`. -/
def stNullFrag : Netplan :=
  { netplanPath := "p", plan := .obj [],
    configs := [("a.yaml", .obj [("network", .obj [("ethernets", .null)])])],
    configFiles := ["a.yaml"], changed := [] }

/-- Readers for the partial-load counterexample: `d/a.yaml` parses, the
rest fail. -/
def readsPartial : String → Except JsErr JVal
  | "d/a.yaml" => .ok (.obj [("network", .obj [("ethernets", .obj [])])])
  | _ => .error (.ioError "EACCES")

/-- A prior store state that the failing reload should have preserved
according to the claim. -/
def stPrior : Netplan :=
  { netplanPath := "d", plan := .obj [("network", .obj [])],
    configs := [("old.yaml", .obj [])], configFiles := ["old.yaml"],
    changed := [] }

/-- Reader for the load witness. -/
def readsW : String → Except JsErr JVal
  | _ => .ok (.obj [("network", .obj [("ethernets", .obj [("eth0",
      .obj [("dhcp4", .bool true)])])])])

def loadedW : Netplan :=
  ((Netplan.make "d").loadConfigs (.ok ["a.yaml"]) readsW).1

/-- A small well-formed tree for the idempotence witness. -/
def wfExample : JVal :=
  .obj [("addresses", .arr [.str "10.0.0.5/24", .num 1]),
        ("nameservers", .obj [("addresses", .arr [.str "192.168.1.1"])])]

/-- C4 counterexample: with `prev = []`, an object element of `next` is
never appended (the claim requires `[{}]`), and a duplicated scalar inside
`next` is appended twice (the claim requires a single `2`), so appending is
not governed by deep equality against the accumulated result. -/
theorem c4_counterexample :
    arrayMerge [] [JVal.obj []] = [] ∧
    arrayMerge [] [JVal.obj []] ≠ [JVal.obj []] ∧
    arrayMerge [] [JVal.num 2, JVal.num 2] = [JVal.num 2, JVal.num 2] ∧
    arrayMerge [] [JVal.num 2, JVal.num 2] ≠ [JVal.num 2] := by
  refine ⟨rfl, ?_, rfl, ?_⟩
  · rw [show arrayMerge [] [JVal.obj []] = [] from rfl]
    simp
  · rw [show arrayMerge [] [JVal.num 2, JVal.num 2] =
      [JVal.num 2, JVal.num 2] from rfl]
    simp

/-- C4 (amended): the array rule keeps every element of `prev` in order and
appends, in order, exactly the primitive (non-object, non-`null`) elements
of `next` that are not `===`-equal to an element of `prev`; object, array
and `null` elements of `next` are never appended, and duplicates within
`next` are not collapsed. The spec's concrete `addresses` example still
folds to `["1.1.1.1/24", "8.8.8.8/24"]`. -/
theorem c4_array_policy_amended :
    (∀ pVal oVal : List JVal, arrayMerge pVal oVal =
      pVal ++ oVal.filter (fun v => !typeofObj v && !pVal.any (scalarEq v))) ∧
    planFold ["a.yaml", "b.yaml"] [("a.yaml", fragAddrA), ("b.yaml", fragAddrB)]
      = (.obj [("network", .obj [("ethernets", .obj [("eth0", .obj [("addresses",
          .arr [.str "1.1.1.1/24", .str "8.8.8.8/24"])])])])], none) :=
  ⟨arrayMerge_eq, rfl⟩

/-- Within one `loadConfigs` call, the ingestion loop never touches the
dirty set. -/
theorem loadLoop_changed (reads : String → Except JsErr JVal) :
    ∀ (names : List String) (st : Netplan),
      ((loadLoop reads st names).1).changed = st.changed
  | [], _ => rfl
  | name :: rest, st => by
    rw [loadLoop]
    cases h : reads name with
    | error e => rfl
    | ok v =>
      cases hm : jmergeDeep st.plan (orEmptyObj v) with
      | error e => simp only [hm]
      | ok p =>
        simp only [hm]
        exact loadLoop_changed reads rest _

/-- C2 counterexample: a successful reload of an empty directory leaves the
stale dirty entry in place — the dirty set after `loadConfigs` is not
empty, and the dirty-iff-mutated-since-load invariant fails right after the
load. -/
theorem c2_counterexample :
    (stDirty.loadConfigs (.ok []) (fun _ => .ok .null)).2 = none ∧
    ((stDirty.loadConfigs (.ok []) (fun _ => .ok .null)).1).changed
      = ["a.yaml"] ∧
    ((stDirty.loadConfigs (.ok []) (fun _ => .ok .null)).1).changed ≠ [] := by
  refine ⟨rfl, rfl, ?_⟩
  rw [show ((stDirty.loadConfigs (.ok []) (fun _ => .ok .null)).1).changed
    = ["a.yaml"] from rfl]
  simp

/-- C2 (amended): `loadConfigs` replaces the fragment set, ordering and plan
but leaves the dirty set exactly as it was — it does not clear it; so the
dirty set is empty after a load only if it was empty before. -/
theorem c2_load_keeps_dirty (st : Netplan) (listing : Except JsErr (List String))
    (reads : String → Except JsErr JVal) :
    ((st.loadConfigs listing reads).1).changed = st.changed := by
  rw [Netplan.loadConfigs.eq_def]
  cases listing with
  | error e => rfl
  | ok files => exact loadLoop_changed reads _ _

/-- C3 counterexample: with dirty set `[a.yaml, b.yaml]`, a writer that
persists `a.yaml` and then fails on `b.yaml` rejects with the underlying
error while the dirty set still contains `a.yaml` — the successfully
written fragment is not removed, contrary to the claim. -/
theorem c3_counterexample :
    (stTwoDirty.writeConfigs writeFailB).2 = .error (.ioError "ENOSPC") ∧
    ((stTwoDirty.writeConfigs writeFailB).1).changed = ["a.yaml", "b.yaml"] ∧
    ((stTwoDirty.writeConfigs writeFailB).1).changed ≠ ["b.yaml"] := by
  refine ⟨rfl, rfl, ?_⟩
  rw [show ((stTwoDirty.writeConfigs writeFailB).1).changed
    = ["a.yaml", "b.yaml"] from rfl]
  simp

/-- C3 (amended): on the first persistence failure the flush aborts and
propagates the underlying error, and the whole store — including the dirty
set, successfully written fragments and all — is left unchanged; only a
fully successful flush empties the dirty set, resolving with the number of
dirty fragments written. -/
theorem c3_flush_amended (st : Netplan)
    (write : String → JVal → Except JsErr Unit) :
    ((st.writeConfigs write).2.isOk = true →
      ((st.writeConfigs write).1).changed = [] ∧
      (st.writeConfigs write).2 = .ok st.changed.length) ∧
    (∀ e, (st.writeConfigs write).2 = .error e → (st.writeConfigs write).1 = st)
    := by
  rw [Netplan.writeConfigs]
  cases h : writeLoop st write st.changed with
  | some e =>
    refine ⟨fun hok => ?_, fun e' _ => rfl⟩
    simp [Except.isOk, Except.toBool] at hok
  | none => exact ⟨fun _ => ⟨rfl, rfl⟩, fun e' he => by simp at he⟩

/-- C3 witness: a fully successful flush of the two-fragment dirty store
empties the dirty set and reports two writes. -/
theorem c3_witness :
    ((stTwoDirty.writeConfigs (fun _ _ => .ok ())).1).changed = [] ∧
    (stTwoDirty.writeConfigs (fun _ _ => .ok ())).2 = .ok 2 := by
  have h := (c3_flush_amended stTwoDirty (fun _ _ => .ok ())).1 (by rfl)
  exact ⟨h.1, h.2⟩

/-- On a plan that is not `null`/`undefined`, `getInterfaces` is the
destructured `network` lookup followed by the category read, throwing
exactly when the `network` node is `null`. -/
theorem getInterfaces_eq (st : Netplan) (t : String)
    (hp : isNullish st.plan = false) :
    st.getInterfaces t =
      match fieldOrDefault st.plan "network" (.obj []) with
      | .null => .error .typeError
      | netv => .ok (getField netv t) := by
  rw [Netplan.getInterfaces.eq_def]
  cases h : st.plan
  case null => rw [h] at hp; simp [isNullish] at hp
  case undefJs => rw [h] at hp; simp [isNullish] at hp
  all_goals rfl

/-- C10: calling `getInterfaces` with no argument is the same as calling it
with `'ethernets'`, and on an object-shaped plan whose `network` node is
not `null` it returns the value at `plan.network.ethernets`. -/
theorem c10_default_category (st : Netplan) :
    st.getInterfacesCall none = st.getInterfacesCall (some "ethernets") ∧
    (∀ netv : JVal, isNullish st.plan = false →
      fieldOrDefault st.plan "network" (.obj []) = netv → netv ≠ .null →
      st.getInterfacesCall none = .ok (getField netv "ethernets")) := by
  refine ⟨rfl, fun netv hp hf hn => ?_⟩
  have h := getInterfaces_eq st "ethernets" hp
  rw [Netplan.getInterfacesCall, h, hf]
  cases netv <;> first
    | exact absurd rfl hn
    | rfl

/-- C10 witness: on the two-fragment store the argument-free call returns
the folded `ethernets` mapping. -/
theorem c10_witness :
    stOverride.getInterfacesCall none
      = .ok (.obj [("eth0", .num 5)]) := by
  have h := (c10_default_category stOverride).2
    (.obj [("ethernets", .obj [("eth0", .num 5)])]) (by rfl) (by rfl) (by simp)
  exact h

/-- Every exception escaping the ownership scan is the `TypeError` from
indexing a `null` node. -/
theorem scanFilesRev_error (configs : List (String × JVal)) (t : String)
    (n : Option String) :
    ∀ (files : List String) (e : JsErr),
      scanFilesRev configs t n files = .error e → e = .typeError
  | [], e => by
    intro h
    simp [scanFilesRev] at h
  | f :: rest, e => by
    intro h
    rw [scanFilesRev] at h
    repeat' split at h
    all_goals first
      | (injection h with h; exact h.symm)
      | simp at h
      | exact scanFilesRev_error configs t _ rest e h

/-- Every exception escaping `mergeDeep` is the `TypeError` from
`Object.keys` of `null`/`undefined`. -/
theorem jmergeDeep_error (p o : JVal) (e : JsErr)
    (h : jmergeDeep p o = .error e) : e = .typeError := by
  rw [jmergeDeep] at h
  split at h
  · injection h with h
    exact h.symm
  · simp at h

/-- Every exception escaping the plan refold is a `TypeError`. -/
theorem updatePlanLoop_error (configs : List (String × JVal)) :
    ∀ (files : List String) (plan : JVal) (e : JsErr),
      (updatePlanLoop configs plan files).2 = some e → e = .typeError
  | [], plan, e => by
    intro h
    simp [updatePlanLoop] at h
  | f :: rest, plan, e => by
    intro h
    rw [updatePlanLoop] at h
    split at h
    next e' hm =>
      simp only [] at h
      injection h with h
      exact h ▸ jmergeDeep_error _ _ _ hm
    next p hm => exact updatePlanLoop_error configs rest p e h

/-- Target resolution in `setInterface` can only throw the `TypeError`
(either from a `null` node met during the scan, or from the
`this.filenames[0]` fallback, `this.filenames` being undefined). -/
theorem setTarget_error (st : Netplan) (t n : String) (e : JsErr)
    (h : setTarget st t n = .error e) : e = .typeError := by
  rw [setTarget] at h
  split at h
  next e' hm =>
    injection h with h
    exact h ▸ scanFilesRev_error _ _ _ _ _ hm
  next r1 hm =>
    split at h
    · simp at h
    · split at h
      next e' hm2 =>
        injection h with h
        exact h ▸ scanFilesRev_error _ _ _ _ _ hm2
      next r2 hm2 =>
        split at h
        · simp at h
        · injection h with h
          exact h.symm

/-- `setInterface` either succeeds or throws a `TypeError`; in particular
the `'No configuration files'` error is unreachable. -/
theorem setInterface_error (st : Netplan) (t n : String) (d : JVal) :
    (st.setInterface t n d).2 = none ∨
      (st.setInterface t n d).2 = some .typeError := by
  rw [Netplan.setInterface.eq_def]
  split
  next e hm =>
    right
    simp only []
    rw [setTarget_error st t n e hm]
  next filename hm =>
    split
    next e hm2 =>
      right
      simp only []
      rw [jmergeDeep_error _ _ _ hm2]
    next cfg hm2 =>
      rw [Netplan.updatePlan]
      cases hu : planFold st.configFiles (setEntry st.configs filename cfg) with
      | mk p eo =>
        cases eo with
        | none => left; rfl
        | some e =>
          right
          have : e = .typeError := by
            have := updatePlanLoop_error (setEntry st.configs filename cfg)
              st.configFiles (.obj [("network", .obj [])]) e
            apply this
            rw [planFold] at hu
            rw [hu]
          rw [this]

/-- C1: the documented fallback chain is broken by a typo. With one fragment
that defines no category, owner resolution fails twice and `setInterface`
throws a `TypeError` from `this.filenames[0]` (the field is named
`configFiles`, so `this.filenames` is `undefined`) instead of falling back
to the earliest fragment; with zero fragments it throws the same
`TypeError`, and the `'No configuration files'` error (`NoFragmentsError`)
can never be raised on any store. -/
theorem c1_setInterface_fallback_bug :
    stNoOwner.setInterface "ethernets" "eth0" (.obj [("dhcp4", .bool false)])
      = (stNoOwner, some .typeError) ∧
    (Netplan.make "/etc/netplan").setInterface "ethernets" "eth0" (.obj [])
      = (Netplan.make "/etc/netplan", some .typeError) ∧
    (∀ (st : Netplan) (t n : String) (d : JVal),
      (st.setInterface t n d).2 = none ∨
        (st.setInterface t n d).2 = some .typeError) :=
  ⟨rfl, rfl, setInterface_error⟩

/-- C6 counterexample: on a plan whose `ethernets` category is `null` (as a
loaded fragment `network: { ethernets: null }` produces), both read
accessors throw a `TypeError` instead of returning an absent result — in
JavaScript `typeof null === 'object'`, so the guard admits `null` and the
subsequent `ifaces[name]` / `Object.keys(ifaces)` throws. -/
theorem c6_counterexample :
    getField (fieldOrDefault stNullCat.plan "network" (.obj [])) "ethernets"
      = .null ∧
    stNullCat.getInterface "ethernets" "eth0" = .error .typeError ∧
    stNullCat.getInterfaceNames "ethernets" = .error .typeError :=
  ⟨rfl, rfl, rfl⟩

/-- C6 (amended): on a plan value that is itself not `null`/`undefined`,
`getInterface` and `getInterfaceNames` are pure reads that return the value
at `plan.network[category][name]` (resp. the category's `Object.keys`) when
the category node is a non-`null` `typeof`-object value, return `null`
(absent) when the category node is a primitive or missing — but throw a
`TypeError` when the `network` node or the category node is `null`. -/
theorem c6_getters_amended (st : Netplan) (t n : String)
    (hp : isNullish st.plan = false) :
    (fieldOrDefault st.plan "network" (.obj []) = .null →
      st.getInterface t n = .error .typeError ∧
      st.getInterfaceNames t = .error .typeError) ∧
    (∀ netv : JVal, fieldOrDefault st.plan "network" (.obj []) = netv →
      netv ≠ .null →
      (getField netv t = .null →
        st.getInterface t n = .error .typeError ∧
        st.getInterfaceNames t = .error .typeError) ∧
      (typeofObj (getField netv t) = true → getField netv t ≠ .null →
        st.getInterface t n = .ok (getField (getField netv t) n) ∧
        st.getInterfaceNames t
          = .ok (.arr ((jsKeys (getField netv t)).map .str))) ∧
      (typeofObj (getField netv t) = false →
        st.getInterface t n = .ok .null ∧
        st.getInterfaceNames t = .ok .null)) := by
  have hgi := getInterfaces_eq st t hp
  constructor
  · intro hnet
    rw [hnet] at hgi
    rw [Netplan.getInterface.eq_def, Netplan.getInterfaceNames.eq_def, hgi]
    exact ⟨rfl, rfl⟩
  · intro netv hnet hnn
    rw [hnet] at hgi
    have hok : st.getInterfaces t = .ok (getField netv t) := by
      rw [hgi]
      cases netv <;> first
        | exact absurd rfl hnn
        | rfl
    refine ⟨fun hnull => ?_, fun hobj hinn => ?_, fun hprim => ?_⟩
    · rw [Netplan.getInterface.eq_def, Netplan.getInterfaceNames.eq_def, hok,
        hnull]
      exact ⟨rfl, rfl⟩
    · rw [Netplan.getInterface.eq_def, Netplan.getInterfaceNames.eq_def, hok]
      cases hv : getField netv t <;>
        first
          | exact ⟨rfl, rfl⟩
          | exact absurd hv hinn
          | (rw [hv] at hobj; simp [typeofObj] at hobj)
    · rw [Netplan.getInterface.eq_def, Netplan.getInterfaceNames.eq_def, hok]
      cases hv : getField netv t <;>
        first
          | exact ⟨rfl, rfl⟩
          | (rw [hv] at hprim; simp [typeofObj] at hprim)

/-- C6 witness: on the two-fragment store, the category node is an object
and `getInterface` returns the folded `eth0` value while
`getInterfaceNames` lists `eth0`. -/
theorem c6_witness :
    stOverride.getInterface "ethernets" "eth0" = .ok (.num 5) ∧
    stOverride.getInterfaceNames "ethernets"
      = .ok (.arr [.str "eth0"]) := by
  have h := ((c6_getters_amended stOverride "ethernets" "eth0" rfl).2
    (.obj [("ethernets", .obj [("eth0", .num 5)])]) (by rfl) (by simp)).2.1
    rfl (by
      rw [show getField (JVal.obj [("ethernets", JVal.obj [("eth0", JVal.num 5)])])
        "ethernets" = JVal.obj [("eth0", JVal.num 5)] from rfl]
      simp)
  exact h

/-- Auxiliary: a fold preserves any invariant its step preserves. -/
theorem foldl_preserve {α β : Type} (P : α → Prop) (f : α → β → α)
    (hf : ∀ a b, P a → P (f a b)) :
    ∀ (l : List β) (a : α), P a → P (l.foldl f a)
  | [], _, h => h
  | b :: l, a, h => foldl_preserve P f hf l (f a b) (hf a b h)

/-- The shallow copy taken by `mergeDeep`'s first reduction step is always
an object. -/
theorem shallowCopy_isObj (p : JVal) : isObj (shallowCopy p) = true := by
  rw [shallowCopy]
  apply foldl_preserve (fun v => isObj v = true)
  · intro a b h
    cases a <;> simp [isObj, setFieldJ] at h ⊢
  · rfl

/-- The merge step sends objects to objects. -/
theorem jmergeStepF_isObj :
    ∀ (fuel : Nat) (prev o : JVal), isObj prev = true →
      isObj (jmergeStepF fuel prev o) = true
  | 0, prev, o, h => h
  | fuel + 1, prev, o, h => by
    rw [jmergeStepF]
    apply foldl_preserve (fun v => isObj v = true)
    · intro a b ha
      cases a <;> first
        | (repeat' split) <;> rfl
        | simp [isObj] at ha
    · exact h

/-- `mergeDeep` succeeds on any pair of non-`null`, non-`undefined`
arguments and produces an object. -/
theorem jmergeDeep_ok (p o : JVal) (hp : isNullish p = false)
    (ho : isNullish o = false) :
    jmergeDeep p o = .ok (jmergeStepF (sizeJ o) (shallowCopy p) o) ∧
      isObj (jmergeStepF (sizeJ o) (shallowCopy p) o) = true := by
  constructor
  · rw [jmergeDeep, hp, ho]
    rfl
  · exact jmergeStepF_isObj _ _ _ (shallowCopy_isObj p)

/-- A parse result passed through `|| {}` is never `null`/`undefined`. -/
theorem orEmptyObj_notNull (v : JVal) : isNullish (orEmptyObj v) = false := by
  rw [orEmptyObj]
  split
  next h =>
    cases v <;> first
      | rfl
      | simp [truthy] at h
  next h => rfl

/-- The ingestion loop keeps the plan an object and rejects exactly when
some read in the list fails (taking them in order). -/
theorem loadLoop_ok_iff (reads : String → Except JsErr JVal) :
    ∀ (names : List String) (st : Netplan), isObj st.plan = true →
      ((loadLoop reads st names).2 = none ↔
        ∀ f ∈ names, (reads f).isOk = true)
  | [], st, h => by simp [loadLoop]
  | name :: rest, st, h => by
    rw [loadLoop]
    cases hr : reads name with
    | error e =>
      simp only []
      constructor
      · intro hn
        simp at hn
      · intro hall
        have := hall name (List.mem_cons_self _ _)
        rw [hr] at this
        simp [Except.isOk, Except.toBool] at this
    | ok v =>
      have hobj : isNullish st.plan = false := by
        cases hpl : st.plan <;> first
          | rfl
          | (rw [hpl] at h; simp [isObj] at h)
      obtain ⟨hme, hmo⟩ := jmergeDeep_ok st.plan (orEmptyObj v) hobj
        (orEmptyObj_notNull v)
      simp only [hme]
      rw [loadLoop_ok_iff reads rest
        { st with configs := setEntry st.configs name (orEmptyObj v),
                  plan := jmergeStepF (sizeJ (orEmptyObj v)) (shallowCopy st.plan)
                    (orEmptyObj v) } hmo]
      constructor
      · intro hall f hf
        rcases List.mem_cons.mp hf with hf | hf
        · rw [hf, hr]; rfl
        · exact hall f hf
      · intro hall f hf
        exact hall f (List.mem_cons_of_mem _ hf)

/-- Within one `loadConfigs` call, the ingestion loop never touches the
already-assigned ordered filename list. -/
theorem loadLoop_configFiles (reads : String → Except JsErr JVal) :
    ∀ (names : List String) (st : Netplan),
      ((loadLoop reads st names).1).configFiles = st.configFiles
  | [], _ => rfl
  | name :: rest, st => by
    rw [loadLoop]
    cases hr : reads name with
    | error e => rfl
    | ok v =>
      cases hm : jmergeDeep st.plan (orEmptyObj v) with
      | error e => simp only [hm]
      | ok p =>
        simp only [hm]
        exact loadLoop_configFiles reads rest _

/-- C8 counterexample: a reload over a prior store with listing
`[a.yaml, b.yaml]` where reading `d/b.yaml` fails rejects with the read
error, yet the store has already been partially overwritten: `configFiles`
holds the full new sorted list (the old `old.yaml` set is gone) and
`configs` holds exactly the one fragment read before the failure. -/
theorem c8_counterexample :
    (stPrior.loadConfigs (.ok ["a.yaml", "b.yaml"]) readsPartial).2
      = some (.ioError "EACCES") ∧
    ((stPrior.loadConfigs (.ok ["a.yaml", "b.yaml"]) readsPartial).1).configFiles
      = ["d/a.yaml", "d/b.yaml"] ∧
    ((stPrior.loadConfigs (.ok ["a.yaml", "b.yaml"]) readsPartial).1).configFiles
      ≠ stPrior.configFiles ∧
    ((stPrior.loadConfigs (.ok ["a.yaml", "b.yaml"]) readsPartial).1).configs
      = [("d/a.yaml", .obj [("network", .obj [("ethernets", .obj [])])])] := by
  refine ⟨rfl, rfl, ?_, rfl⟩
  rw [show ((stPrior.loadConfigs (.ok ["a.yaml", "b.yaml"])
    readsPartial).1).configFiles = ["d/a.yaml", "d/b.yaml"] from rfl]
  intro hcontra
  exact absurd (congrArg List.length hcontra) (by decide)

/-- C8 (amended): the all-or-nothing guarantee holds only for enumeration
failures — a failed `readdir` propagates and leaves the store exactly as it
was. Once enumeration succeeds, `configFiles` is unconditionally replaced
by the new sorted listing, and the call succeeds iff every listed fragment
reads and parses; a mid-loop read failure propagates but leaves the store
partially loaded. -/
theorem c8_load_amended :
    (∀ (st : Netplan) (e : JsErr) (reads : String → Except JsErr JVal),
      st.loadConfigs (.error e) reads = (st, some e)) ∧
    (∀ (st : Netplan) (files : List String)
        (reads : String → Except JsErr JVal),
      ((st.loadConfigs (.ok files) reads).1).configFiles
        = sortStrings (getConfigFilenames st.netplanPath files)) ∧
    (∀ (st : Netplan) (files : List String)
        (reads : String → Except JsErr JVal),
      ((st.loadConfigs (.ok files) reads).2 = none ↔
        ∀ f ∈ sortStrings (getConfigFilenames st.netplanPath files),
          (reads f).isOk = true)) := by
  refine ⟨fun st e reads => rfl, fun st files reads => ?_, fun st files reads => ?_⟩
  · rw [Netplan.loadConfigs.eq_def]
    simp only []
    exact loadLoop_configFiles reads _ _
  · rw [Netplan.loadConfigs.eq_def]
    simp only []
    exact loadLoop_ok_iff reads _ _ rfl

/-- C8 witness: a failed enumeration leaves the fresh store untouched, and a
reload where every fragment reads succeeds. -/
theorem c8_witness :
    (Netplan.make "x").loadConfigs (.error (.ioError "EIO")) readsW
      = (Netplan.make "x", some (.ioError "EIO")) ∧
    ((Netplan.make "d").loadConfigs (.ok ["a.yaml"]) readsW).2 = none := by
  refine ⟨c8_load_amended.1 (Netplan.make "x") (.ioError "EIO") readsW, ?_⟩
  exact (c8_load_amended.2.2 (Netplan.make "d") ["a.yaml"] readsW).mpr
    (fun f _ => rfl)

/-- One arm of the backwards scan, over an arbitrary category node `g` and
continuation `C`: the loop body is the `scanHit`/`scanThrows` decision. -/
theorem scan_arm (n : Option String) (g : JVal) (f : String)
    (C : Except JsErr (Option String)) :
    (if typeofObj g then
      (match n with
       | none => Except.ok (some f)
       | some nm =>
         match g with
         | .null => Except.error .typeError
         | iv =>
           if typeofObj (getField iv nm) then Except.ok (some f) else C)
     else C)
    = (if typeofObj g &&
          (n.isNone || isNull g || typeofObj (getField g (n.getD ""))) then
        (if isNull g && n.isSome then Except.error .typeError
         else Except.ok (some f))
       else C) := by
  cases g <;> cases n <;>
    simp [typeofObj, isNull]

/-- The scan's per-file decision over an arbitrary fragment `network`
value `x`. -/
theorem scan_cons_general (t : String) (n : Option String) (f : String)
    (x : JVal) (C : Except JsErr (Option String)) :
    (match x with
     | .null => Except.error .typeError
     | netv =>
       if typeofObj (getField netv t) then
         (match n with
          | none => Except.ok (some f)
          | some nm =>
            match getField netv t with
            | .null => Except.error .typeError
            | iv =>
              if typeofObj (getField iv nm) then Except.ok (some f) else C)
       else C)
    = (if (match x with
           | .null => true
           | netv =>
             typeofObj (getField netv t) &&
               (n.isNone || isNull (getField netv t) ||
                 typeofObj (getField (getField netv t) (n.getD "")))) then
        (if (match x with
             | .null => true
             | netv => isNull (getField netv t) && n.isSome) then
          Except.error .typeError
         else Except.ok (some f))
       else C) := by
  cases x
  case null => rfl
  all_goals exact scan_arm n _ f _

/-- Unrolling one file of the backwards scan. -/
theorem scanFilesRev_cons (configs : List (String × JVal)) (t : String)
    (n : Option String) (f : String) (rest : List String) :
    scanFilesRev configs t n (f :: rest) =
      if scanHit configs t n f then
        (if scanThrows configs t n f then .error .typeError else .ok (some f))
      else scanFilesRev configs t n rest := by
  rw [scanFilesRev]
  exact scan_cons_general t n f
    (fieldOrDefault (fragTree configs f) "network" (.obj []))
    (scanFilesRev configs t n rest)

/-- The backwards scan is the first-match search with predicate `scanHit`,
throwing exactly when the first stopping fragment satisfies `scanThrows`. -/
theorem scanFilesRev_eq_find (configs : List (String × JVal)) (t : String)
    (n : Option String) :
    ∀ files : List String,
      scanFilesRev configs t n files =
        match files.find? (scanHit configs t n) with
        | none => .ok none
        | some f =>
          if scanThrows configs t n f then .error .typeError
          else .ok (some f)
  | [] => rfl
  | f :: rest => by
    rw [scanFilesRev_cons]
    cases hh : scanHit configs t n f with
    | true =>
      rw [List.find?_cons_of_pos _ hh, if_pos (by simp [hh])]
    | false =>
      rw [List.find?_cons_of_neg _ (by simp [hh]),
        if_neg (by simp [hh])]
      exact scanFilesRev_eq_find configs t n rest

/-- C7 counterexample: a fragment whose category node is `null` makes the
named scan throw a `TypeError` (instead of the claimed absent result — `null`
is not object-shaped, so no fragment qualifies under the claim), while the
name-less scan returns that fragment as the category owner even though its
category node is `null`. -/
theorem c7_counterexample :
    stNullFrag.getFilenameByInterface "ethernets" (some "eth0")
      = .error .typeError ∧
    stNullFrag.getFilenameByInterface "ethernets" (some "eth0") ≠ .ok none ∧
    stNullFrag.getFilenameByInterface "ethernets" none = .ok (some "a.yaml") := by
  refine ⟨rfl, ?_, rfl⟩
  rw [show stNullFrag.getFilenameByInterface "ethernets" (some "eth0")
    = .error .typeError from rfl]
  simp

/-- C7 (amended): the scan walks `configFiles` in reverse sorted order and
stops at the first fragment whose (unmerged) tree has `typeof network[category]
=== 'object'` — which admits `null` and arrays — and, when a name is given,
additionally has `typeof network[category][name] === 'object'` (also
admitting `null`), except that it stops by throwing a `TypeError` when the
fragment's `network` value is `null`, or when a name is given and its
category node is `null`; it returns absent when no fragment stops the scan.
The spec's `[A, B]` example still resolves to `A`. -/
theorem c7_owner_scan_amended :
    (∀ (st : Netplan) (t : String) (n : Option String),
      st.getFilenameByInterface t n =
        match (st.configFiles.reverse).find? (scanHit st.configs t n) with
        | none => .ok none
        | some f =>
          if scanThrows st.configs t n f then .error .typeError
          else .ok (some f)) ∧
    stOwnExample.getFilenameByInterface "ethernets" (some "eth0")
      = .ok (some "a.yaml") := by
  refine ⟨fun st t n => ?_, rfl⟩
  rw [Netplan.getFilenameByInterface]
  exact scanFilesRev_eq_find st.configs t n st.configFiles.reverse

/-- Assignment of a fresh key appends. -/
theorem setEntry_append (fs : List (String × JVal)) (k : String) (v : JVal)
    (h : ∀ q ∈ fs, q.1 ≠ k) : setEntry fs k v = fs ++ [(k, v)] := by
  rw [setEntry, if_neg]
  simp only [List.any_eq_true, not_exists, not_and]
  intro q hq
  simp [h q hq]

/-- Looking a fresh key up past a prefix that does not contain it. -/
theorem lookup_append_cons (fs rest : List (String × JVal)) (k : String)
    (v : JVal) (h : ∀ q ∈ fs, q.1 ≠ k) :
    lookupConfig (fs ++ (k, v) :: rest) k = v := by
  induction fs with
  | nil => simp [lookupConfig, List.find?]
  | cons q fs ih =>
    rw [lookupConfig] at ih ⊢
    rw [List.cons_append, List.find?]
    have : (q.1 == k) = false := by
      simp [h q (List.mem_cons_self _ _)]
    rw [this]
    exact ih (fun q hq => h q (List.mem_cons_of_mem _ hq))

/-- A successful ingestion loop appends one `configs` entry per listed name
and leaves a plan that the `updatePlan` refold reproduces from the final
`configs` map. -/
theorem loadLoop_fold (reads : String → Except JsErr JVal) :
    ∀ (names : List String) (st st' : Netplan),
      names.Nodup → (∀ nm ∈ names, ∀ q ∈ st.configs, q.1 ≠ nm) →
      loadLoop reads st names = (st', none) →
      ∃ added : List (String × JVal),
        st'.configs = st.configs ++ added ∧
        updatePlanLoop st'.configs st.plan names = (st'.plan, none)
  | [], st, st', _, _, h => by
    rw [loadLoop] at h
    injection h with h1 _
    exact ⟨[], by simp [h1.symm], by rw [updatePlanLoop, h1]⟩
  | nm :: rest, st, st', hnd, hfresh, h => by
    rw [loadLoop] at h
    cases hr : reads nm with
    | error e =>
      rw [hr] at h
      simp only [] at h
      injection h with _ h2
      simp at h2
    | ok v =>
      rw [hr] at h
      simp only [] at h
      cases hm : jmergeDeep st.plan (orEmptyObj v) with
      | error e =>
        rw [hm] at h
        simp only [] at h
        injection h with _ h2
        simp at h2
      | ok p =>
        rw [hm] at h
        simp only [] at h
        have hfresh0 : ∀ q ∈ st.configs, q.1 ≠ nm :=
          fun q hq => hfresh nm (List.mem_cons_self _ _) q hq
        have hset : setEntry st.configs nm (orEmptyObj v)
            = st.configs ++ [(nm, orEmptyObj v)] :=
          setEntry_append _ _ _ hfresh0
        have hfresh1 : ∀ nm' ∈ rest,
            ∀ q ∈ st.configs ++ [(nm, orEmptyObj v)], q.1 ≠ nm' := by
          intro nm' hnm' q hq
          rcases List.mem_append.mp hq with hq | hq
          · exact hfresh nm' (List.mem_cons_of_mem _ hnm') q hq
          · simp at hq
            rw [hq]
            intro hcontra
            apply (List.nodup_cons.mp hnd).1
            rw [show nm = nm' from hcontra]
            exact hnm'
        obtain ⟨added, hconf, hplan⟩ :=
          loadLoop_fold reads rest
            { st with configs := setEntry st.configs nm (orEmptyObj v),
                      plan := p } st'
            (List.nodup_cons.mp hnd).2
            (by
              intro nm' hnm' q hq
              simp only [hset] at hq
              exact hfresh1 nm' hnm' q hq)
            h
        simp only [hset] at hconf
        refine ⟨(nm, orEmptyObj v) :: added, by simp [hconf], ?_⟩
        rw [updatePlanLoop]
        have hlook : lookupConfig st'.configs nm = orEmptyObj v := by
          rw [hconf, List.append_assoc, List.singleton_append]
          exact lookup_append_cons _ _ _ _ hfresh0
        rw [hlook, hm]
        exact hplan

/-- C5 counterexample: on the two-fragment store, before the write the
entity value is the scalar `5` contributed by the later fragment `b.yaml`;
`setInterface` merges `{y: 2}` into the owner `a.yaml` and succeeds, but
`getEntity` still returns `5` — not the `combine` of the previous value
with the data, which would be `{y: 2}`. -/
theorem c5_counterexample :
    stOverride.getInterface "ethernets" "eth0" = .ok (.num 5) ∧
    (stOverride.setInterface "ethernets" "eth0" (.obj [("y", .num 2)])).2
      = none ∧
    ((stOverride.setInterface "ethernets" "eth0" (.obj [("y", .num 2)])).1).getInterface
      "ethernets" "eth0" = .ok (.num 5) ∧
    combine (.num 5) (.obj [("y", .num 2)]) = .ok (.obj [("y", .num 2)]) ∧
    JVal.num 5 ≠ JVal.obj [("y", .num 2)] := by
  refine ⟨rfl, rfl, rfl, rfl, by simp⟩

/-- C5 (amended): after every successful `loadConfigs` (over a
duplicate-free sorted listing) and after every successful `setInterface`,
the stored plan equals the `updatePlan` fold of the stored fragments in
`configFiles` order; `getEntity` reads that refolded plan, but its value
need not equal the `combine` of the previous entity value with the written
data when a fragment sorted after the owner also contributes to the same
path. -/
theorem c5_plan_fold_amended :
    (∀ (st : Netplan) (files : List String)
        (reads : String → Except JsErr JVal) (st' : Netplan),
      (sortStrings (getConfigFilenames st.netplanPath files)).Nodup →
      st.loadConfigs (.ok files) reads = (st', none) →
      planFold st'.configFiles st'.configs = (st'.plan, none)) ∧
    (∀ (st : Netplan) (t n : String) (d : JVal) (st' : Netplan),
      st.setInterface t n d = (st', none) →
      planFold st'.configFiles st'.configs = (st'.plan, none)) := by
  constructor
  · intro st files reads st' hnd h
    rw [Netplan.loadConfigs.eq_def] at h
    simp only [] at h
    obtain ⟨added, hconf, hplan⟩ :=
      loadLoop_fold reads (sortStrings (getConfigFilenames st.netplanPath files))
        { st with
            configFiles := sortStrings (getConfigFilenames st.netplanPath files),
            configs := [],
            plan := .obj [("network", .obj [])] } st' hnd
        (by intro nm _ q hq; simp at hq) h
    have hcf : st'.configFiles
        = sortStrings (getConfigFilenames st.netplanPath files) := by
      have := loadLoop_configFiles reads
        (sortStrings (getConfigFilenames st.netplanPath files))
        { st with
            configFiles := sortStrings (getConfigFilenames st.netplanPath files),
            configs := [],
            plan := .obj [("network", .obj [])] }
      rw [h] at this
      exact this
    rw [planFold, hcf]
    exact hplan
  · intro st t n d st' h
    rw [Netplan.setInterface.eq_def] at h
    split at h
    · injection h with _ h2
      simp at h2
    · split at h
      · injection h with _ h2
        simp at h2
      next cfg hm =>
        rw [Netplan.updatePlan] at h
        cases hu : planFold st.configFiles (setEntry st.configs _ cfg) with
        | mk p e =>
          rw [hu] at h
          simp only [] at h
          injection h with h1 h2
          rw [← h1]
          simp only []
          rw [hu, h2]

/-- C5 witness: loading one fragment succeeds and the resulting plan is the
refold of the resulting fragment map. -/
theorem c5_witness :
    (Netplan.make "d").loadConfigs (.ok ["a.yaml"]) readsW = (loadedW, none) ∧
    planFold loadedW.configFiles loadedW.configs = (loadedW.plan, none) := by
  have h1 : (Netplan.make "d").loadConfigs (.ok ["a.yaml"]) readsW
      = (loadedW, none) := rfl
  exact ⟨h1, c5_plan_fold_amended.1 (Netplan.make "d") ["a.yaml"] readsW loadedW
    (by decide) h1⟩

/-- Size of a member value is bounded by the field-list size. -/
theorem sizeJF_mem : ∀ (fs : List (String × JVal)) (k : String) (v : JVal),
    (k, v) ∈ fs → sizeJ v ≤ sizeJF fs
  | [], _, _, h => by simp at h
  | kv :: fs, k, v, h => by
    rw [sizeJF]
    rcases List.mem_cons.mp h with h | h
    · rw [← h]
      show sizeJ v ≤ 1 + sizeJ v + sizeJF fs
      omega
    · have := sizeJF_mem fs k v h
      omega

/-- A member value of an object node is strictly smaller than the node. -/
theorem sizeJ_mem_lt (fs : List (String × JVal)) (k : String) (v : JVal)
    (h : (k, v) ∈ fs) : sizeJ v < sizeJ (.obj fs) := by
  rw [sizeJ]
  have := sizeJF_mem fs k v h
  omega

/-- A primitive is `===`-equal to itself. -/
theorem scalarEq_self (v : JVal) (h : typeofObj v = false) :
    scalarEq v v = true := by
  cases v <;> simp_all [typeofObj, scalarEq]

/-- Merging identical arrays under the evolved policy returns the array
unchanged: primitives of `next` are all already in `prev`, and the
`JSON.stringify` fallback never appends. -/
theorem arrayMerge_self (xs : List JVal) : arrayMerge xs xs = xs := by
  rw [arrayMerge_eq]
  rw [filter_ext _ (fun _ => false) xs ?_]
  · simp
  · intro v hv
    cases htv : typeofObj v
    · have : xs.any (scalarEq v) = true :=
        List.any_eq_true.mpr ⟨v, hv, scalarEq_self v htv⟩
      simp [this]
    · simp [htv]

/-- In a duplicate-free field list, a key determines its entry. -/
theorem keys_nodup_mem_eq :
    ∀ (fs : List (String × JVal)), (fs.map Prod.fst).Nodup →
      ∀ (k : String) (v : JVal), (k, v) ∈ fs →
      ∀ q ∈ fs, q.1 = k → q = (k, v)
  | [], _, _, _, h, _, _, _ => by simp at h
  | p :: fs, hnd, k, v, hm, q, hq, hqk => by
    rw [List.map_cons, List.nodup_cons] at hnd
    rcases List.mem_cons.mp hq with hq | hq <;>
      rcases List.mem_cons.mp hm with hm | hm
    · rw [hq, hm]
    · exfalso
      apply hnd.1
      rw [← hq, hqk]
      exact List.mem_map_of_mem Prod.fst hm
    · exfalso
      apply hnd.1
      rw [← hm, show (k, v).1 = k from rfl, ← hqk]
      exact List.mem_map_of_mem Prod.fst hq
    · exact keys_nodup_mem_eq fs hnd.2 k v hm q hq hqk

/-- In a duplicate-free field list, `find?` by key returns the entry. -/
theorem find_nodup_mem :
    ∀ (fs : List (String × JVal)), (fs.map Prod.fst).Nodup →
      ∀ (k : String) (v : JVal), (k, v) ∈ fs →
      fs.find? (fun p => p.1 == k) = some (k, v)
  | [], _, _, _, h => by simp at h
  | p :: fs, hnd, k, v, hm => by
    cases hpk : (p.1 == k) with
    | true =>
      have heq : p = (k, v) :=
        keys_nodup_mem_eq (p :: fs) hnd k v hm p (List.mem_cons_self _ _)
          (by simpa using hpk)
      rw [heq]
      exact List.find?_cons_of_pos _ (by simp)
    | false =>
      rw [List.find?_cons_of_neg _ (by simp [hpk])]
      rw [List.map_cons, List.nodup_cons] at hnd
      rcases List.mem_cons.mp hm with hm | hm
      · exfalso
        rw [← hm] at hpk
        simp at hpk
      · exact find_nodup_mem fs hnd.2 k v hm

/-- Property read on a duplicate-free object. -/
theorem getField_obj_nodup (fs : List (String × JVal)) (k : String) (v : JVal)
    (hnd : (fs.map Prod.fst).Nodup) (hm : (k, v) ∈ fs) :
    getField (.obj fs) k = v := by
  rw [getField, find_nodup_mem fs hnd k v hm]

/-- Mapping a function that fixes every member is the identity. -/
theorem map_id_ext {α : Type} (f : α → α) :
    ∀ l : List α, (∀ a ∈ l, f a = a) → l.map f = l
  | [], _ => rfl
  | a :: l, h => by
    rw [List.map_cons, h a (List.mem_cons_self _ _),
      map_id_ext f l (fun x hx => h x (List.mem_cons_of_mem _ hx))]

/-- Re-assigning the value an entry already holds leaves the list alone. -/
theorem setEntry_mem_self (fs : List (String × JVal)) (k : String) (v : JVal)
    (hnd : (fs.map Prod.fst).Nodup) (hm : (k, v) ∈ fs) :
    setEntry fs k v = fs := by
  rw [setEntry, if_pos]
  · apply map_id_ext
    intro p hp
    cases hpk : (p.1 == k) with
    | true =>
      rw [if_pos rfl]
      exact (keys_nodup_mem_eq fs hnd k v hm p hp (by simpa using hpk)).symm
    | false => rw [if_neg (by simp)]
  · exact List.any_eq_true.mpr ⟨(k, v), hm, by simp⟩

/-- `setFieldJ` with the stored value is the identity on objects. -/
theorem setFieldJ_obj_self (fs : List (String × JVal)) (k : String) (v : JVal)
    (hnd : (fs.map Prod.fst).Nodup) (hm : (k, v) ∈ fs) :
    setFieldJ (.obj fs) k v = .obj fs := by
  rw [setFieldJ, setEntry_mem_self fs k v hnd hm]

/-- The shallow-copy fold over fresh keys appends them in order. -/
theorem shallowCopy_fold :
    ∀ (gs pre : List (String × JVal)), ((pre ++ gs).map Prod.fst).Nodup →
      gs.foldl (fun acc kv => setFieldJ acc kv.1 kv.2) (.obj pre)
        = .obj (pre ++ gs)
  | [], pre, _ => by simp
  | (k, v) :: gs, pre, hnd => by
    rw [List.foldl_cons]
    have hk : ∀ q ∈ pre, (q.1 == k) = false := by
      intro q hq
      have hnd' := hnd
      rw [List.map_append] at hnd'
      have hd := (List.nodup_append.mp hnd').2.2
      have hq1 : q.1 ∈ List.map Prod.fst pre :=
        List.mem_map_of_mem Prod.fst hq
      have hnotin : ¬ q.1 ∈ List.map Prod.fst ((k, v) :: gs) :=
        fun hc => hd hq1 hc
      simp only [List.map_cons, List.mem_cons] at hnotin
      have hne : q.1 ≠ k := fun hc => hnotin (Or.inl hc)
      simp [hne]
    have hstep : setFieldJ (.obj pre) k v = .obj (pre ++ [(k, v)]) := by
      rw [setFieldJ, setEntry, if_neg]
      simp only [List.any_eq_true, not_exists, not_and]
      intro q hq
      simp [hk q hq]
    rw [hstep]
    have := shallowCopy_fold gs (pre ++ [(k, v)])
      (by rw [List.append_assoc]; simpa using hnd)
    rw [this]
    simp

/-- `mergeDeep`'s first step reproduces a duplicate-free object. -/
theorem shallowCopy_obj (fs : List (String × JVal))
    (hnd : (fs.map Prod.fst).Nodup) : shallowCopy (.obj fs) = .obj fs := by
  rw [shallowCopy]
  have := shallowCopy_fold fs [] (by simpa using hnd)
  simpa using this

/-- Evaluating one merge-loop arm when both sides carry the same value `v`:
every branch re-assigns the value already stored. -/
theorem body_eval (fuel : Nat) (base : JVal) (k : String) (v : JVal)
    (hrec : isObjectJs v = true → isArr v = false →
      jmergeStepF fuel (shallowCopy v) v = v) :
    (if isArr v && isArr v then
      setFieldJ base k (.arr (arrayMerge (arrElems v) (arrElems v)))
     else if isObjectJs v && isObjectJs v then
      setFieldJ base k (jmergeStepF fuel (shallowCopy v) v)
     else setFieldJ base k v)
    = setFieldJ base k v := by
  cases v with
  | arr xs =>
    rw [if_pos (by simp [isArr])]
    rw [show arrElems (JVal.arr xs) = xs from rfl, arrayMerge_self]
  | obj gs =>
    rw [if_neg (by simp [isArr]), if_pos (by simp [isObjectJs])]
    rw [hrec (by simp [isObjectJs]) (by simp [isArr])]
  | undefJs => rw [if_neg (by simp [isArr]), if_neg (by simp [isObjectJs])]
  | null => rw [if_neg (by simp [isArr]), if_neg (by simp [isObjectJs])]
  | bool b => rw [if_neg (by simp [isArr]), if_neg (by simp [isObjectJs])]
  | num n1 => rw [if_neg (by simp [isArr]), if_neg (by simp [isObjectJs])]
  | str s1 => rw [if_neg (by simp [isArr]), if_neg (by simp [isObjectJs])]

/-- Merging a well-formed object with itself is the identity, for any
sufficient fuel. -/
theorem jmergeStepF_self :
    ∀ (N : Nat) (fs : List (String × JVal)),
      sizeJ (.obj fs) ≤ N → WfJ (.obj fs) →
      ∀ fuel : Nat, sizeJ (.obj fs) ≤ fuel →
      jmergeStepF fuel (.obj fs) (.obj fs) = .obj fs
  | 0, fs => by
    intro hN _ _ _
    rw [sizeJ] at hN
    omega
  | N + 1, fs => by
    intro hN hwf fuel hfuel
    have hnd : (fs.map Prod.fst).Nodup := by
      cases hwf with
      | obj _ h1 _ => exact h1
    have hall : ∀ kv ∈ fs, WfJ kv.2 := by
      cases hwf with
      | obj _ _ h2 => exact h2
    cases fuel with
    | zero =>
      rw [sizeJ] at hfuel
      omega
    | succ fuel =>
      rw [jmergeStepF]
      apply foldl_fixed
      intro kv hkv
      have hmem : kv ∈ fs := hkv
      have hv : WfJ kv.2 := hall kv hmem
      have hget : getField (.obj fs) kv.1 = kv.2 :=
        getField_obj_nodup fs kv.1 kv.2 hnd hmem
      have hlt : sizeJ kv.2 < sizeJ (.obj fs) :=
        sizeJ_mem_lt fs kv.1 kv.2 hmem
      rw [hget]
      rw [body_eval fuel (.obj fs) kv.1 kv.2 ?_]
      · exact setFieldJ_obj_self fs kv.1 kv.2 hnd hmem
      · intro hobj harr
        cases hv2 : kv.2 with
        | obj gs =>
          rw [hv2] at hv hlt
          have hndg : (gs.map Prod.fst).Nodup := by
            cases hv with
            | obj _ h1 _ => exact h1
          rw [shallowCopy_obj gs hndg]
          exact jmergeStepF_self N gs (by omega) hv fuel (by omega)
        | arr xs =>
          rw [hv2] at harr
          simp [isArr] at harr
        | undefJs => rw [hv2] at hobj; simp [isObjectJs] at hobj
        | null => rw [hv2] at hobj; simp [isObjectJs] at hobj
        | bool b => rw [hv2] at hobj; simp [isObjectJs] at hobj
        | num n1 => rw [hv2] at hobj; simp [isObjectJs] at hobj
        | str s1 => rw [hv2] at hobj; simp [isObjectJs] at hobj

/-- C9: with the dedup-concatenation policy in force, `combine(x, x)` is
structurally equal to `x` for every well-formed mapping or array tree. -/
theorem c9_combine_idempotent (x : JVal) (hwf : WfJ x)
    (hobj : isObjectJs x = true) : combine x x = .ok x := by
  cases x with
  | arr xs =>
    rw [combine, if_pos (by simp [isArr])]
    rw [show arrElems (JVal.arr xs) = xs from rfl, arrayMerge_self]
  | obj fs =>
    have hnd : (fs.map Prod.fst).Nodup := by
      cases hwf with
      | obj _ h1 _ => exact h1
    rw [combine, if_neg (by simp [isArr]), if_pos (by simp [isObjectJs])]
    rw [jmergeDeep, if_neg (by simp [isNullish])]
    rw [shallowCopy_obj fs hnd]
    rw [jmergeStepF_self (sizeJ (.obj fs)) fs le_rfl hwf (sizeJ (.obj fs)) le_rfl]
  | undefJs => simp [isObjectJs] at hobj
  | null => simp [isObjectJs] at hobj
  | bool b => simp [isObjectJs] at hobj
  | num n1 => simp [isObjectJs] at hobj
  | str s1 => simp [isObjectJs] at hobj

/-- C9 witness: a concrete nested tree with an address array and a nested
mapping merges with itself to itself. -/
theorem c9_witness :
    WfJ wfExample ∧ isObjectJs wfExample = true ∧
      combine wfExample wfExample = .ok wfExample := by
  have hwf : WfJ wfExample := by
    refine WfJ.obj _ (by decide) ?_
    intro kv hkv
    simp [wfExample] at hkv
    rcases hkv with h | h <;> rw [h]
    · refine WfJ.arr _ ?_
      intro x hx
      simp at hx
      rcases hx with h2 | h2 <;> rw [h2] <;> constructor
    · refine WfJ.obj _ (by decide) ?_
      intro kv2 hkv2
      simp at hkv2
      rw [hkv2]
      refine WfJ.arr _ ?_
      intro x hx
      simp at hx
      rw [hx]
      constructor
  exact ⟨hwf, rfl, c9_combine_idempotent wfExample hwf rfl⟩
